import Mathlib

/-!
Verification model of the agentic tool-calling orchestrator in
`src/implement_feature.ts`: the five tools (read / write / edit / bash /
glob), the audit-log artifacts, and the conversation loop
(`implementFeature`).  File contents are modelled as `List Char`, the
filesystem as an association list from paths to contents, subprocess and
LLM behaviour as explicit oracle inputs.
-/

namespace ImplFeature

/-! ## JavaScript string primitives used by the tools

`edit` relies on `String.prototype.includes` and
`String.prototype.replace(searchString, replaceString)`.  `replace` with a
string pattern substitutes the first occurrence and applies the
`GetSubstitution` rules to the replacement: `$$`, `$&`, a dollar followed
by a backquote, and a dollar followed by a quote are special; with a
string pattern there are no capture groups, so every other sequence is
literal. -/

/-- Index of the first occurrence of `pat` in `s` (JS `indexOf`):
smallest `i` such that `pat` is a prefix of `s.drop i`. -/
def firstMatch (s pat : List Char) : Option Nat :=
  if pat.isPrefixOf s then some 0
  else
    match s with
    | [] => none
    | _ :: t => (firstMatch t pat).map (· + 1)

/-- JS `includes`: true when `pat` occurs somewhere in `s`. -/
def jsIncludes (s pat : List Char) : Bool :=
  (firstMatch s pat).isSome

/-- The backquote character, code point 96. -/
def backquoteChar : Char := Char.ofNat 96

/-- The single-quote character, code point 39. -/
def squoteChar : Char := Char.ofNat 39

/-- ES `GetSubstitution` for a string search pattern: expand the dollar
templates in the replacement text.  `matched` is the matched text (equal
to the search string), `pos` its position in the subject `str`. -/
def getSubstitution (matched : List Char) (pos : Nat) (str : List Char) :
    List Char → List Char
  | [] => []
  | [c] => [c]
  | c :: d :: rest2 =>
    if c = '$' then
      if d = '$' then '$' :: getSubstitution matched pos str rest2
      else if d = '&' then matched ++ getSubstitution matched pos str rest2
      else if d = backquoteChar then
        str.take pos ++ getSubstitution matched pos str rest2
      else if d = squoteChar then
        str.drop (pos + matched.length) ++ getSubstitution matched pos str rest2
      else c :: getSubstitution matched pos str (d :: rest2)
    else c :: getSubstitution matched pos str (d :: rest2)

/-- JS `s.replace(pat, rep)` with string arguments: substitute the first
occurrence of `pat`, expanding dollar templates in `rep`; return `s`
unchanged when there is no occurrence. -/
def jsReplace (s pat rep : List Char) : List Char :=
  match firstMatch s pat with
  | none => s
  | some i => s.take i ++ getSubstitution pat i s rep ++ s.drop (i + pat.length)

/-- All positions at which `pat` occurs in `s`. -/
def matchPositions (s pat : List Char) : List Nat :=
  (List.range (s.length + 1)).filter fun i => pat.isPrefixOf (s.drop i)

/-- Replacement texts with no special dollar template: no dollar directly
followed by a dollar, an ampersand, a backquote or a quote.  On these, JS
substitution is literal. -/
def noSpecialDollar : List Char → Bool
  | [] => true
  | [_] => true
  | c :: d :: rest =>
    if c = '$' ∧ (d = '$' ∨ d = '&' ∨ d = backquoteChar ∨ d = squoteChar) then false
    else noSpecialDollar (d :: rest)

/-! ## Filesystem model -/

/-- The working-directory filesystem: association list from paths to file
contents; lookup takes the most recent binding. -/
structure FS where
  files : List (String × List Char)
deriving DecidableEq

/-- Contents of the file at `p`, when it exists. -/
def readFS (fs : FS) (p : String) : Option (List Char) :=
  fs.files.lookup p

/-- `fs.writeFileSync(p, c)`: create or fully overwrite the file at `p`. -/
def writeFS (fs : FS) (p : String) (c : List Char) : FS :=
  ⟨(p, c) :: fs.files⟩

/-! ## Tool Set (class `Tools`)

Each tool returns a text result, never throwing past its boundary; error
outcomes are strings starting with `Error: `, mirroring the source. -/

/-- A tool result text is an error result when it carries the `Error: `
marker the tools prepend on every failure path. -/
def isErrorText (s : String) : Bool :=
  "Error: ".data.isPrefixOf s.data

/-- `Tools.read`: the file contents as text on success, an error text
when the path cannot be opened. -/
def read (fs : FS) (p : String) : String :=
  match readFS fs p with
  | some c => String.mk c
  | none => "Error: Failed to read " ++ p

/-- `Tools.write`: create parent directories as needed and write the file
as a complete replacement; returns the success message and the new
filesystem. -/
def write (fs : FS) (p : String) (c : List Char) : String × FS :=
  ("Successfully wrote " ++ p, writeFS fs p c)

/-- `Tools.edit`: read the file, require `oldText` to occur, replace the
first occurrence via JS `replace`, write the file back.  Missing file or
missing old text yield error texts and leave the filesystem unchanged. -/
def edit (fs : FS) (p : String) (oldText newText : List Char) : String × FS :=
  match readFS fs p with
  | none => ("Error: Failed to edit " ++ p, fs)
  | some content =>
    if jsIncludes content oldText then
      ("Successfully edited " ++ p, writeFS fs p (jsReplace content oldText newText))
    else
      ("Error: Old text not found in " ++ p, fs)

/-- Outcome of the subprocess spawned by `Tools.bash`, as observed through
`execAsync` with its 10 MiB output buffer: either a zero exit with the
captured output streams, or a rejection carrying a message and the
captured streams. -/
inductive ExecOutcome where
  | success (stdout stderr : String)
  | failure (message stdout stderr : String)
deriving DecidableEq

/-- `Tools.bash`: combined stdout and stderr on success (a fixed message
when that text is empty); an error text embedding the captured output on
a non-zero exit. -/
def bash : ExecOutcome → String
  | .success out err =>
    let output := out ++ err
    if output = "" then "Command executed successfully" else output
  | .failure msg out err =>
    "Error: Bash command failed: " ++ msg ++ "\nOutput: " ++ out ++ "\n" ++ err

/-- Join a list of lines with newline separators (JS `join('\n')`). -/
def joinLines : List String → String
  | [] => ""
  | [l] => l
  | l :: rest => l ++ "\n" ++ joinLines rest

/-- The file list `Tools.glob` assembles: the subprocess pipeline caps
`find`'s match lines at 100 (`head -100`), and the tool drops blank lines
(`filter(Boolean)`). -/
def globFiles (found : List String) : List String :=
  (found.take 100).filter fun l => l ≠ ""

/-- `Tools.glob`: the matching paths joined by newlines — the empty text,
not an error, when nothing matches. -/
def glob (found : List String) : String :=
  joinLines (globFiles found)

/-! ## Audit Logger artifacts -/

/-- Kinds of audit-log entries. -/
inductive LogKind where
  | system | tool | message | error
deriving DecidableEq

/-- One entry of the append-only audit log. -/
structure LogEntry where
  timestamp : String
  kind : LogKind
  content : String
deriving DecidableEq

/-- The final JSON snapshot `claude-execution.log.json`: all log entries
plus run metadata.  The success path stores `totalIterations`, the fatal
path stores the error message. -/
structure Snapshot where
  logs : List LogEntry
  totalIterations : Option Nat
  errorMsg : Option String
deriving DecidableEq

/-- Snapshot written on the success path (line 336 of the source):
`{ logs, totalIterations: iterationCount }`. -/
def successSnapshot (logs : List LogEntry) (iterationCount : Nat) : Snapshot :=
  ⟨logs, some iterationCount, none⟩

/-- Snapshot written by the fatal-error handler (line 349):
`{ logs, error: error.message }`. -/
def fatalSnapshot (logs : List LogEntry) (errorMessage : String) : Snapshot :=
  ⟨logs, none, some errorMessage⟩

/-- The plain-text artifact `claude-error-summary.txt` written only on
fatal failure: the contents of the error-kind entries, one per line. -/
def errorSummary (logs : List LogEntry) : List String :=
  (logs.filter fun l => l.kind = .error).map fun l => l.content

/-! ## Conversation State and the Orchestration Loop -/

/-- Arguments of one tool call, together with the behaviour of the
external effects it may trigger: the subprocess outcome for `bash` and
the `find` match lines for `glob` are oracle inputs of the model. -/
structure ToolArgs where
  path : String
  content : List Char
  oldText : List Char
  newText : List Char
  execOutcome : ExecOutcome
  globMatches : List String
deriving DecidableEq

/-- A content block of a model response: text, or a tool call carrying a
correlation id, a tool name and its input. -/
inductive ContentBlock where
  | text (s : String)
  | toolUse (id : String) (name : String) (args : ToolArgs)
deriving DecidableEq

/-- A tool result answering the call with the given correlation id. -/
structure ToolResult where
  tool_use_id : String
  content : String
deriving DecidableEq

/-- One model response: its stop reason (only `end_turn` or not matters
to the loop) and its content blocks. -/
structure ModelResponse where
  stopEndTurn : Bool
  content : List ContentBlock
deriving DecidableEq

/-- A turn of the transcript sent to the model. -/
inductive Turn where
  | userText (s : String)
  | assistant (content : List ContentBlock)
  | toolResults (rs : List ToolResult)
deriving DecidableEq

/-- Correlation ids of the tool-call blocks, in response order. -/
def toolUseIds : List ContentBlock → List String
  | [] => []
  | .text _ :: rest => toolUseIds rest
  | .toolUse id _ _ :: rest => id :: toolUseIds rest

/-- Whether any block of the response is a tool call. -/
def hasToolUse (blocks : List ContentBlock) : Bool :=
  blocks.any fun b => match b with
    | .toolUse _ _ _ => true
    | _ => false

/-- The `switch (block.name)` dispatch of the loop body: run the named
tool, or report an unknown tool name as a result text. -/
def runTool (fs : FS) (name : String) (a : ToolArgs) : String × FS :=
  if name = "read" then (read fs a.path, fs)
  else if name = "write" then write fs a.path a.content
  else if name = "edit" then edit fs a.path a.oldText a.newText
  else if name = "bash" then (bash a.execOutcome, fs)
  else if name = "glob" then (glob a.globMatches, fs)
  else ("Unknown tool: " ++ name, fs)

/-- The block-scanning pass of one iteration: dispatch every tool call in
order, threading the filesystem, and collect one `ToolResult` per call. -/
def processBlocks (fs : FS) : List ContentBlock → FS × List ToolResult
  | [] => (fs, [])
  | .text _ :: rest => processBlocks fs rest
  | .toolUse id name args :: rest =>
    let r := runTool fs name args
    let out := processBlocks r.2 rest
    (out.1, ⟨id, r.1⟩ :: out.2)

/-- The mutable state of `implementFeature`'s conversation loop. -/
structure LoopState where
  messages : List Turn
  iterationCount : Nat
  continueLoop : Bool
  fs : FS
deriving DecidableEq

/-- The hard iteration ceiling. -/
def MAX_ITERATIONS : Nat := 20

/-- One execution of the loop body on the response to this iteration's
completion request: dispatch the blocks; end the conversation on
`end_turn` or when no tool was used, otherwise append the assistant turn
and the batch of tool results to the transcript. -/
def loopStep (st : LoopState) (resp : ModelResponse) : LoopState :=
  let it := st.iterationCount + 1
  let out := processBlocks st.fs resp.content
  if resp.stopEndTurn || !hasToolUse resp.content then
    ⟨st.messages, it, false, out.1⟩
  else
    let ms := st.messages ++ [Turn.assistant resp.content]
    let ms := if out.2.length > 0 then ms ++ [Turn.toolResults out.2] else ms
    ⟨ms, it, true, out.1⟩

/-- The `while (continueLoop && iterationCount < MAX_ITERATIONS)` loop,
unrolled on explicit fuel; `oracle n` is the model's response to the
completion request of iteration `n + 1`.  Fuel `MAX_ITERATIONS -
iterationCount` suffices because every step increments the count. -/
def runLoopAux (oracle : Nat → ModelResponse) : Nat → LoopState → LoopState
  | 0, st => st
  | n + 1, st =>
    if st.continueLoop && decide (st.iterationCount < MAX_ITERATIONS) then
      runLoopAux oracle n (loopStep st (oracle st.iterationCount))
    else st

/-- The conversation loop run to completion from a state. -/
def runLoop (oracle : Nat → ModelResponse) (st : LoopState) : LoopState :=
  runLoopAux oracle (MAX_ITERATIONS - st.iterationCount) st

/-- The loop state `implementFeature` builds before the first completion
request: the initial user turn, iteration count 0, continue flag set. -/
def initState (fs : FS) (userPrompt : String) : LoopState :=
  ⟨[Turn.userText userPrompt], 0, true, fs⟩

/-- The transcript never contains an unanswered tool call: every
assistant turn whose content holds tool calls is immediately followed by
a tool-results turn answering exactly those calls, in order. -/
def answered : List Turn → Prop
  | [] => True
  | Turn.assistant c :: rest =>
    (hasToolUse c = true →
      ∃ rs rest', rest = Turn.toolResults rs :: rest' ∧
        rs.map (fun r => r.tool_use_id) = toolUseIds c) ∧
    answered rest
  | _ :: rest => answered rest

/-- A fixed tool-call argument record used to instantiate theorems on
concrete responses. -/
def sampleArgs : ToolArgs :=
  ⟨"p", [], [], [], ExecOutcome.success "" "", []⟩

/-- A tool-call argument record whose subprocess exits non-zero. -/
def failBashArgs : ToolArgs :=
  ⟨"", [], [], [], ExecOutcome.failure "exit 1" "" "", []⟩

/-! ## Lemmas about the string primitives -/

theorem firstMatch_isSome_of_prefix (pat : List Char) :
    ∀ (s : List Char) (i : Nat), pat.isPrefixOf (s.drop i) = true →
      (firstMatch s pat).isSome = true := by
  intro s
  induction s with
  | nil =>
    intro i h
    simp only [List.drop_nil] at h
    simp [firstMatch, h]
  | cons c t ih =>
    intro i h
    rw [firstMatch]
    by_cases hp : pat.isPrefixOf (c :: t)
    · simp [hp]
    · simp only [hp, if_false]
      cases i with
      | zero => simp only [List.drop_zero] at h; exact absurd h (by simpa using hp)
      | succ j =>
        simp only [List.drop_succ_cons] at h
        have := ih j h
        simpa [Option.isSome_map] using this

theorem firstMatch_prefix (pat : List Char) :
    ∀ (s : List Char) (i : Nat), firstMatch s pat = some i →
      pat.isPrefixOf (s.drop i) = true := by
  intro s
  induction s with
  | nil =>
    intro i h
    rw [firstMatch] at h
    by_cases hp : pat.isPrefixOf ([] : List Char)
    · simp only [hp, if_true, Option.some.injEq] at h
      subst h; simpa using hp
    · simp [hp] at h
  | cons c t ih =>
    intro i h
    rw [firstMatch] at h
    by_cases hp : pat.isPrefixOf (c :: t)
    · simp only [hp, if_true, Option.some.injEq] at h
      subst h; simpa using hp
    · simp only [hp, if_false] at h
      cases hft : firstMatch t pat with
      | none => rw [hft] at h; cases h
      | some j =>
        rw [hft] at h
        obtain rfl : j + 1 = i := Option.some.inj h
        simpa using ih j hft

theorem firstMatch_isSome_iff_occurs (s pat : List Char) :
    (firstMatch s pat).isSome = true ↔ pat <:+: s := by
  constructor
  · intro h
    obtain ⟨i, hi⟩ := Option.isSome_iff_exists.mp h
    have hpre := firstMatch_prefix pat s i hi
    have hpre' : pat <+: s.drop i := List.isPrefixOf_iff_prefix.mp hpre
    exact hpre'.isInfix.trans (s.drop_suffix i).isInfix
  · rintro ⟨pre, suf, rfl⟩
    apply firstMatch_isSome_of_prefix pat _ pre.length
    rw [List.append_assoc, List.drop_left]
    exact List.isPrefixOf_iff_prefix.mpr (List.prefix_append pat suf)

theorem firstMatch_eq_some_of (pat : List Char) :
    ∀ (s : List Char) (i : Nat), pat.isPrefixOf (s.drop i) = true →
      (∀ j < i, pat.isPrefixOf (s.drop j) = false) →
      firstMatch s pat = some i := by
  intro s
  induction s with
  | nil =>
    intro i h hmin
    simp only [List.drop_nil] at h
    cases i with
    | zero => simp [firstMatch, h]
    | succ j =>
      have := hmin 0 (Nat.succ_pos j)
      simp only [List.drop_nil] at this
      rw [this] at h; cases h
  | cons c t ih =>
    intro i h hmin
    rw [firstMatch]
    by_cases hp : pat.isPrefixOf (c :: t)
    · cases i with
      | zero => simp [hp]
      | succ j =>
        have := hmin 0 (Nat.succ_pos j)
        simp only [List.drop_zero] at this
        rw [this] at hp; cases hp
    · simp only [hp, if_false]
      cases i with
      | zero => simp only [List.drop_zero] at h; exact absurd h (by simpa using hp)
      | succ j =>
        simp only [List.drop_succ_cons] at h
        have ht := ih j h fun k hk => by
          have := hmin (k + 1) (Nat.succ_lt_succ hk)
          simpa using this
        rw [ht]; rfl

theorem getSubstitution_of_noSpecialDollar (m : List Char) (p : Nat) (s : List Char) :
    ∀ rep : List Char, noSpecialDollar rep = true →
      getSubstitution m p s rep = rep := by
  intro rep
  induction rep with
  | nil => intro _; rfl
  | cons c rest ih =>
    intro h
    cases rest with
    | nil =>
      show getSubstitution m p s [c] = [c]
      rfl
    | cons d rest2 =>
      rw [noSpecialDollar] at h
      by_cases hsp : c = '$' ∧ (d = '$' ∨ d = '&' ∨ d = backquoteChar ∨ d = squoteChar)
      · rw [if_pos hsp] at h; cases h
      · rw [if_neg hsp] at h
        have htail := ih h
        rw [getSubstitution]
        by_cases hc : c = '$'
        · have hd : ¬(d = '$' ∨ d = '&' ∨ d = backquoteChar ∨ d = squoteChar) :=
            fun hor => hsp ⟨hc, hor⟩
          push_neg at hd
          rw [if_pos hc, if_neg hd.1, if_neg hd.2.1, if_neg hd.2.2.1, if_neg hd.2.2.2,
            htail]
        · rw [if_neg hc, htail]

theorem jsReplace_decomp (pre old suf new : List Char)
    (hfirst : ∀ j < pre.length,
      old.isPrefixOf ((pre ++ old ++ suf).drop j) = false)
    (hds : noSpecialDollar new = true) :
    jsReplace (pre ++ old ++ suf) old new = pre ++ new ++ suf := by
  have hpre : old.isPrefixOf ((pre ++ old ++ suf).drop pre.length) = true := by
    rw [List.append_assoc, List.drop_left]
    exact List.isPrefixOf_iff_prefix.mpr (List.prefix_append old suf)
  have hfm := firstMatch_eq_some_of old (pre ++ old ++ suf) pre.length hpre hfirst
  rw [jsReplace, hfm]
  show (pre ++ old ++ suf).take pre.length ++
      getSubstitution old pre.length (pre ++ old ++ suf) new ++
      (pre ++ old ++ suf).drop (pre.length + old.length) = pre ++ new ++ suf
  rw [getSubstitution_of_noSpecialDollar _ _ _ _ hds]
  have htake : (pre ++ old ++ suf).take pre.length = pre := by
    rw [List.append_assoc, List.take_left]
  have hdrop : (pre ++ old ++ suf).drop (pre.length + old.length) = suf := by
    rw [← List.length_append pre old, List.drop_left]
  rw [htake, hdrop, List.append_assoc]

/-! ## Lemmas about the filesystem and result texts -/

theorem readFS_writeFS_self (fs : FS) (p : String) (c : List Char) :
    readFS (writeFS fs p c) p = some c := by
  simp [readFS, writeFS, List.lookup]

theorem readFS_writeFS_ne (fs : FS) (p q : String) (c : List Char) (h : q ≠ p) :
    readFS (writeFS fs p c) q = readFS fs q := by
  simp [readFS, writeFS, List.lookup, beq_eq_false_iff_ne.mpr h]

theorem isErrorText_append (s t : String) (h : isErrorText s = true) :
    isErrorText (s ++ t) = true := by
  rw [isErrorText, String.data_append]
  exact List.isPrefixOf_iff_prefix.mpr
    ((List.isPrefixOf_iff_prefix.mp h).trans (s.data.prefix_append t.data))

theorem mem_matchPositions (s pat : List Char) (j : Nat) :
    j ∈ matchPositions s pat ↔ j < s.length + 1 ∧ pat.isPrefixOf (s.drop j) = true := by
  simp [matchPositions, List.mem_filter, List.mem_range]

/-! ## Claim theorems: the Tool Set -/

/-- **C3** (amended): on a file containing `oldText` exactly once, `edit`
replaces that unique occurrence by `newText` and leaves everything else —
the rest of the file and every other file — unchanged, provided `newText`
contains no special dollar template (JS `replace` expands `$$`, `$&`,
dollar-backquote and dollar-quote in the replacement). -/
theorem edit_unique_occurrence_replaces
    (fs : FS) (p : String) (pre old suf new : List Char)
    (hread : readFS fs p = some (pre ++ old ++ suf))
    (huniq : matchPositions (pre ++ old ++ suf) old = [pre.length])
    (hds : noSpecialDollar new = true) :
    edit fs p old new = ("Successfully edited " ++ p, writeFS fs p (pre ++ new ++ suf)) ∧
    readFS (edit fs p old new).2 p = some (pre ++ new ++ suf) ∧
    ∀ q, q ≠ p → readFS (edit fs p old new).2 q = readFS fs q := by
  have hlen : pre.length ≤ (pre ++ old ++ suf).length := by
    simp [List.length_append]
  have hone : ∀ j < pre.length,
      old.isPrefixOf ((pre ++ old ++ suf).drop j) = false := by
    intro j hj
    by_contra hcon
    have htrue : old.isPrefixOf ((pre ++ old ++ suf).drop j) = true :=
      Bool.not_eq_false _ ▸ (by simpa using hcon)
    have hmem : j ∈ matchPositions (pre ++ old ++ suf) old :=
      (mem_matchPositions _ _ _).mpr ⟨by omega, htrue⟩
    rw [huniq, List.mem_singleton] at hmem
    omega
  have hpre : old.isPrefixOf ((pre ++ old ++ suf).drop pre.length) = true := by
    rw [List.append_assoc, List.drop_left]
    exact List.isPrefixOf_iff_prefix.mpr (List.prefix_append old suf)
  have hfm := firstMatch_eq_some_of old (pre ++ old ++ suf) pre.length hpre hone
  have hinc : jsIncludes (pre ++ old ++ suf) old = true := by
    rw [jsIncludes, hfm]; rfl
  have hrepl := jsReplace_decomp pre old suf new hone hds
  have hedit : edit fs p old new =
      ("Successfully edited " ++ p, writeFS fs p (pre ++ new ++ suf)) := by
    rw [edit, hread]
    show (if jsIncludes (pre ++ old ++ suf) old then _ else _) = _
    rw [if_pos hinc, hrepl]
  refine ⟨hedit, ?_, ?_⟩
  · rw [hedit]; exact readFS_writeFS_self fs p _
  · intro q hq; rw [hedit]; exact readFS_writeFS_ne fs p q _ hq

/-- **C4**: `edit` on a file that does not contain `oldText` returns an
error result and leaves the filesystem (hence the file, byte for byte)
unchanged. -/
theorem edit_old_text_not_found
    (fs : FS) (p : String) (content old new : List Char)
    (hread : readFS fs p = some content)
    (hni : ¬ old <:+: content) :
    edit fs p old new = ("Error: Old text not found in " ++ p, fs) ∧
    isErrorText (edit fs p old new).1 = true ∧
    readFS (edit fs p old new).2 p = some content := by
  have hinc : jsIncludes content old = false := by
    rw [jsIncludes]
    cases hs : (firstMatch content old).isSome with
    | false => rfl
    | true => exact absurd ((firstMatch_isSome_iff_occurs content old).mp hs) hni
  have hedit : edit fs p old new = ("Error: Old text not found in " ++ p, fs) := by
    rw [edit, hread]
    show (if jsIncludes content old then _ else _) = _
    rw [if_neg (by simp [hinc])]
  refine ⟨hedit, ?_, ?_⟩
  · rw [hedit]
    exact isErrorText_append "Error: Old text not found in " p (by decide)
  · rw [hedit]; exact hread

/-- **C5**: a `write` followed by a `read` of the same path returns
exactly the written content, whatever the file held before — `write` is a
complete replacement. -/
theorem write_read_roundtrip (fs : FS) (p : String) (c : List Char) :
    read (write fs p c).2 p = String.mk c ∧
    readFS (write fs p c).2 p = some c := by
  have h : readFS (write fs p c).2 p = some c := readFS_writeFS_self fs p c
  exact ⟨by rw [read, h], h⟩

/-- **C7**: `glob` never returns more than the 100-path cap, and zero
matches yield the empty text — a success result, not an error result. -/
theorem glob_cap_and_empty :
    (∀ found : List String, (globFiles found).length ≤ 100) ∧
    glob [] = "" ∧ isErrorText (glob []) = false := by
  refine ⟨fun found => ?_, rfl, by decide⟩
  calc (globFiles found).length ≤ (found.take 100).length :=
        List.length_filter_le _ _
    _ ≤ 100 := by simp [List.length_take]

/-- **C10** (amended): `edit` with an empty `oldText` never reports
"old text not found" — it always succeeds — and, when `newText` contains
no special dollar template, writes the file back with `newText` prepended
to the original contents. -/
theorem edit_empty_old_text
    (fs : FS) (p : String) (content new : List Char)
    (hread : readFS fs p = some content) :
    (edit fs p [] new).1 = "Successfully edited " ++ p ∧
    (noSpecialDollar new = true →
      (edit fs p [] new).2 = writeFS fs p (new ++ content)) := by
  have hfm : firstMatch content [] = some 0 := by
    rw [firstMatch.eq_def, if_pos (by simp [List.isPrefixOf])]
  have hinc : jsIncludes content [] = true := by rw [jsIncludes, hfm]; rfl
  have hrepl : ∀ _h : noSpecialDollar new = true,
      jsReplace content [] new = new ++ content := by
    intro h
    rw [jsReplace, hfm]
    show content.take 0 ++ getSubstitution [] 0 content new ++
        content.drop (0 + List.length []) = new ++ content
    rw [getSubstitution_of_noSpecialDollar _ _ _ _ h]
    simp
  have hedit : edit fs p [] new =
      ("Successfully edited " ++ p, writeFS fs p (jsReplace content [] new)) := by
    rw [edit, hread]
    show (if jsIncludes content [] then _ else _) = _
    rw [if_pos hinc]
  exact ⟨by rw [hedit], fun h => by rw [hedit, hrepl h]⟩

/-- Witness for the amended C3 theorem at a concrete edit. -/
theorem edit_unique_occurrence_replaces_witness :
    edit ⟨[("w", ['x', 'a', 'y'])]⟩ "w" ['a'] ['Z'] =
      ("Successfully edited " ++ "w",
        writeFS ⟨[("w", ['x', 'a', 'y'])]⟩ "w" (['x'] ++ ['Z'] ++ ['y'])) :=
  (edit_unique_occurrence_replaces ⟨[("w", ['x', 'a', 'y'])]⟩ "w"
    ['x'] ['a'] ['y'] ['Z'] (by decide) (by decide) (by decide)).1

/-- **C3** counterexample: on the file `xay`, which contains `a` exactly
once, `edit` with replacement text `$$` writes back `x$y` — JS `replace`
collapses `$$` to a single dollar — not the claimed `x$$y`. -/
theorem edit_unique_occurrence_dollar_cex :
    matchPositions ['x', 'a', 'y'] ['a'] = [1] ∧
    readFS (edit ⟨[("f", ['x', 'a', 'y'])]⟩ "f" ['a'] ['$', '$']).2 "f" =
      some ['x', '$', 'y'] ∧
    (['x', '$', 'y'] : List Char) ≠ ['x'] ++ ['$', '$'] ++ ['y'] := by decide

/-- Witness for the C4 theorem at a concrete edit. -/
theorem edit_old_text_not_found_witness :
    edit ⟨[("w", ['a', 'b'])]⟩ "w" ['z'] ['Z'] =
      ("Error: Old text not found in " ++ "w", ⟨[("w", ['a', 'b'])]⟩) :=
  (edit_old_text_not_found ⟨[("w", ['a', 'b'])]⟩ "w" ['a', 'b'] ['z'] ['Z']
    (by decide) (by decide)).1

/-- Witness for the amended C10 theorem at a concrete edit. -/
theorem edit_empty_old_text_witness :
    (edit ⟨[("w", ['a', 'b'])]⟩ "w" [] ['N']).1 = "Successfully edited " ++ "w" ∧
    (edit ⟨[("w", ['a', 'b'])]⟩ "w" [] ['N']).2 =
      writeFS ⟨[("w", ['a', 'b'])]⟩ "w" (['N'] ++ ['a', 'b']) :=
  have h := edit_empty_old_text ⟨[("w", ['a', 'b'])]⟩ "w" ['a', 'b'] ['N'] (by decide)
  ⟨h.1, h.2 (by decide)⟩

/-- **C10** counterexample: `edit` with empty old text and replacement
`$&` leaves the file `ab` unchanged — `$&` expands to the empty matched
text — instead of the claimed prepend `$&ab`. -/
theorem edit_empty_old_dollar_cex :
    readFS (edit ⟨[("g", ['a', 'b'])]⟩ "g" [] ['$', '&']).2 "g" = some ['a', 'b'] ∧
    (['a', 'b'] : List Char) ≠ ['$', '&'] ++ ['a', 'b'] := by decide

/-! ## Lemmas about the orchestration loop -/

theorem processBlocks_ids :
    ∀ (blocks : List ContentBlock) (fs : FS),
      ((processBlocks fs blocks).2).map (fun r => r.tool_use_id) = toolUseIds blocks := by
  intro blocks
  induction blocks with
  | nil => intro fs; rfl
  | cons b rest ih =>
    intro fs
    cases b with
    | text s => rw [processBlocks, toolUseIds]; exact ih fs
    | toolUse id name args =>
      rw [processBlocks, toolUseIds]
      simp only [List.map_cons]
      rw [ih]

theorem toolUseIds_ne_nil_of_hasToolUse :
    ∀ blocks : List ContentBlock, hasToolUse blocks = true → toolUseIds blocks ≠ [] := by
  intro blocks
  induction blocks with
  | nil => intro h; cases h
  | cons b rest ih =>
    intro h
    cases b with
    | text s =>
      rw [toolUseIds]
      exact ih (by simpa [hasToolUse] using h)
    | toolUse id name args => rw [toolUseIds]; exact List.cons_ne_nil id _

theorem processBlocks_length_pos (fs : FS) (blocks : List ContentBlock)
    (h : hasToolUse blocks = true) : 0 < ((processBlocks fs blocks).2).length := by
  have hids := processBlocks_ids blocks fs
  have hne := toolUseIds_ne_nil_of_hasToolUse blocks h
  rw [← hids] at hne
  have : (processBlocks fs blocks).2 ≠ [] := fun hnil => hne (by rw [hnil]; rfl)
  exact List.length_pos.mpr this

theorem loopStep_iterationCount (st : LoopState) (resp : ModelResponse) :
    (loopStep st resp).iterationCount = st.iterationCount + 1 := by
  rw [loopStep]
  split
  · rfl
  · split <;> rfl

theorem loopStep_end (st : LoopState) (resp : ModelResponse)
    (h : resp.stopEndTurn = true ∨ hasToolUse resp.content = false) :
    loopStep st resp =
      ⟨st.messages, st.iterationCount + 1, false, (processBlocks st.fs resp.content).1⟩ := by
  rw [loopStep]
  have hc : (resp.stopEndTurn || !hasToolUse resp.content) = true := by
    rcases h with h | h <;> simp [h]
  rw [if_pos hc]

theorem loopStep_continue (st : LoopState) (resp : ModelResponse)
    (hse : resp.stopEndTurn = false) (hhas : hasToolUse resp.content = true) :
    loopStep st resp =
      ⟨st.messages ++ [Turn.assistant resp.content,
          Turn.toolResults (processBlocks st.fs resp.content).2],
        st.iterationCount + 1, true, (processBlocks st.fs resp.content).1⟩ := by
  rw [loopStep]
  have hc : (resp.stopEndTurn || !hasToolUse resp.content) = false := by
    simp [hse, hhas]
  rw [if_neg (by simp [hc])]
  have hlen : 0 < ((processBlocks st.fs resp.content).2).length :=
    processBlocks_length_pos st.fs resp.content hhas
  simp [hlen, List.append_assoc]

theorem runLoopAux_iter_le (oracle : Nat → ModelResponse) :
    ∀ (n : Nat) (st : LoopState),
      (runLoopAux oracle n st).iterationCount ≤ st.iterationCount + n := by
  intro n
  induction n with
  | zero => intro st; exact Nat.le_refl _
  | succ m ih =>
    intro st
    rw [runLoopAux]
    split
    · have := ih (loopStep st (oracle st.iterationCount))
      rw [loopStep_iterationCount] at this
      omega
    · omega

theorem runLoopAux_iter_ge (oracle : Nat → ModelResponse) :
    ∀ (n : Nat) (st : LoopState),
      st.iterationCount ≤ (runLoopAux oracle n st).iterationCount := by
  intro n
  induction n with
  | zero => intro st; exact Nat.le_refl _
  | succ m ih =>
    intro st
    rw [runLoopAux]
    split
    · have := ih (loopStep st (oracle st.iterationCount))
      rw [loopStep_iterationCount] at this
      omega
    · exact Nat.le_refl _

theorem runLoopAux_iter_max (oracle : Nat → ModelResponse) :
    ∀ (n : Nat) (st : LoopState), st.iterationCount ≤ MAX_ITERATIONS →
      (runLoopAux oracle n st).iterationCount ≤ MAX_ITERATIONS := by
  intro n
  induction n with
  | zero => intro st h; exact h
  | succ m ih =>
    intro st h
    rw [runLoopAux]
    split
    · rename_i hcond
      have hlt : st.iterationCount < MAX_ITERATIONS := by
        have := (Bool.and_eq_true _ _).mp hcond
        exact of_decide_eq_true this.2
      apply ih
      rw [loopStep_iterationCount]
      omega
    · exact h

theorem answered_append_pair :
    ∀ (ms : List Turn) (c : List ContentBlock) (rs : List ToolResult),
      answered ms → rs.map (fun r => r.tool_use_id) = toolUseIds c →
      answered (ms ++ [Turn.assistant c, Turn.toolResults rs]) := by
  intro ms
  induction ms with
  | nil =>
    intro c rs _ hids
    exact ⟨fun _ => ⟨rs, [], rfl, hids⟩, trivial⟩
  | cons t rest ih =>
    intro c rs h hids
    cases t with
    | userText s => exact ih c rs h hids
    | toolResults rs0 => exact ih c rs h hids
    | assistant c0 =>
      obtain ⟨hcond, hrest⟩ := h
      refine ⟨?_, ih c rs hrest hids⟩
      intro hhas
      obtain ⟨rs1, rest1, hshape, hm⟩ := hcond hhas
      exact ⟨rs1, rest1 ++ [Turn.assistant c, Turn.toolResults rs], by
        rw [hshape]; rfl, hm⟩

theorem answered_runLoopAux (oracle : Nat → ModelResponse) :
    ∀ (n : Nat) (st : LoopState),
      answered st.messages → answered ((runLoopAux oracle n st).messages) := by
  intro n
  induction n with
  | zero => intro st h; exact h
  | succ m ih =>
    intro st h
    rw [runLoopAux]
    split
    · apply ih
      by_cases hse : (oracle st.iterationCount).stopEndTurn = true
      · rw [loopStep_end st _ (Or.inl hse)]; exact h
      · by_cases hhas : hasToolUse (oracle st.iterationCount).content = true
        · rw [loopStep_continue st _ (Bool.not_eq_true _ ▸ hse) hhas]
          exact answered_append_pair st.messages _ _ h
            (processBlocks_ids (oracle st.iterationCount).content st.fs)
        · rw [loopStep_end st _ (Or.inr (Bool.not_eq_true _ ▸ hhas))]; exact h
    · exact h

/-! ## Claim theorems: the Orchestration Loop and the artifacts -/

/-- **C1**: the ceiling is 20; every loop body execution increments the
iteration count by exactly one (so it is monotonically non-decreasing);
once the count has reached the ceiling the loop performs no further
completion request, whatever the oracle would answer; and a run from the
initial state ends with an iteration count — the one recorded in the
final report — of at most the ceiling. -/
theorem iteration_ceiling :
    MAX_ITERATIONS = 20 ∧
    (∀ st resp, (loopStep st resp).iterationCount = st.iterationCount + 1) ∧
    (∀ oracle n st, st.iterationCount ≤ (runLoopAux oracle n st).iterationCount) ∧
    (∀ oracle st, MAX_ITERATIONS ≤ st.iterationCount → runLoop oracle st = st) ∧
    (∀ oracle fs up ls,
      (runLoop oracle (initState fs up)).iterationCount ≤ MAX_ITERATIONS ∧
      ∃ k, (successSnapshot ls
          ((runLoop oracle (initState fs up)).iterationCount)).totalIterations = some k ∧
        k ≤ MAX_ITERATIONS) := by
  refine ⟨rfl, loopStep_iterationCount, runLoopAux_iter_ge, ?_, ?_⟩
  · intro oracle st h
    rw [runLoop, Nat.sub_eq_zero_of_le h]
    rfl
  · intro oracle fs up ls
    have hb : (runLoop oracle (initState fs up)).iterationCount ≤ MAX_ITERATIONS := by
      rw [runLoop]
      exact runLoopAux_iter_max oracle _ _ (Nat.zero_le _)
    exact ⟨hb, ⟨_, rfl, hb⟩⟩

/-- Witness for the C1 theorem: at the ceiling the loop is a no-op. -/
theorem iteration_ceiling_witness :
    runLoop (fun _ => ⟨true, []⟩) ⟨[], 20, true, ⟨[]⟩⟩ = ⟨[], 20, true, ⟨[]⟩⟩ :=
  iteration_ceiling.2.2.2.1 (fun _ => ⟨true, []⟩) ⟨[], 20, true, ⟨[]⟩⟩ (by decide)

/-- **C2**: the batch built while scanning a response pairs one tool
result per tool-call block, carrying exactly the calls' correlation ids
in order (unknown tool names included); with pairwise-distinct call ids
every call is answered by exactly one matching result; on a continuing
iteration the transcript gains the assistant turn immediately followed by
the tool-results turn; and a transcript without unanswered calls keeps
that invariant through the whole loop. -/
theorem tool_calls_answered :
    (∀ fs blocks,
      ((processBlocks fs blocks).2).map (fun r => r.tool_use_id) = toolUseIds blocks) ∧
    (∀ fs blocks id, (toolUseIds blocks).Nodup → id ∈ toolUseIds blocks →
      (((processBlocks fs blocks).2).filter fun r => r.tool_use_id == id).length = 1) ∧
    (∀ st resp, resp.stopEndTurn = false → hasToolUse resp.content = true →
      (loopStep st resp).messages = st.messages ++ [Turn.assistant resp.content,
        Turn.toolResults (processBlocks st.fs resp.content).2] ∧
      (loopStep st resp).continueLoop = true) ∧
    (∀ oracle n st, answered st.messages → answered ((runLoopAux oracle n st).messages)) := by
  refine ⟨fun fs blocks => processBlocks_ids blocks fs, ?_, ?_, answered_runLoopAux⟩
  · intro fs blocks id hnd hmem
    have hids := processBlocks_ids blocks fs
    calc (((processBlocks fs blocks).2).filter fun r => r.tool_use_id == id).length
        = ((processBlocks fs blocks).2).countP (fun r => r.tool_use_id == id) :=
          (List.countP_eq_length_filter _ _).symm
      _ = (((processBlocks fs blocks).2).map fun r => r.tool_use_id).countP (· == id) := by
          rw [List.countP_map]; rfl
      _ = (toolUseIds blocks).count id := by rw [hids]; rfl
      _ = 1 := List.count_eq_one_of_mem hnd hmem
  · intro st resp hse hhas
    rw [loopStep_continue st resp hse hhas]
    exact ⟨rfl, rfl⟩

/-- Witness for the C2 theorem on a concrete two-call response (one call
naming an unknown tool) and a concrete three-step run. -/
theorem tool_calls_answered_witness :
    (((processBlocks ⟨[]⟩ [ContentBlock.toolUse "i1" "bogus" sampleArgs,
        ContentBlock.text "hi", ContentBlock.toolUse "i2" "read" sampleArgs]).2).filter
      fun r => r.tool_use_id == "i1").length = 1 ∧
    answered ((runLoopAux (fun _ => ⟨true, []⟩) 3 (initState ⟨[]⟩ "go")).messages) :=
  ⟨tool_calls_answered.2.1 ⟨[]⟩ [ContentBlock.toolUse "i1" "bogus" sampleArgs,
      ContentBlock.text "hi", ContentBlock.toolUse "i2" "read" sampleArgs] "i1"
      (by decide) (by decide),
    tool_calls_answered.2.2.2 (fun _ => ⟨true, []⟩) 3 (initState ⟨[]⟩ "go") trivial⟩

/-- **C9**: a tool call naming none of the five known tools is answered
by a result reading `Unknown tool: ...` correlated to that call's id, and
the loop carries on to its next step. -/
theorem unknown_tool_contained :
    (∀ fs name args, name ≠ "read" → name ≠ "write" → name ≠ "edit" →
      name ≠ "bash" → name ≠ "glob" →
      runTool fs name args = ("Unknown tool: " ++ name, fs)) ∧
    (∀ (st : LoopState) (id name : String) (args : ToolArgs),
      (loopStep st ⟨false, [ContentBlock.toolUse id name args]⟩).messages =
        st.messages ++ [Turn.assistant [ContentBlock.toolUse id name args],
          Turn.toolResults [⟨id, (runTool st.fs name args).1⟩]] ∧
      (loopStep st ⟨false, [ContentBlock.toolUse id name args]⟩).continueLoop = true) := by
  constructor
  · intro fs name args h1 h2 h3 h4 h5
    rw [runTool, if_neg h1, if_neg h2, if_neg h3, if_neg h4, if_neg h5]
  · intro st id name args
    rw [loopStep_continue st ⟨false, [ContentBlock.toolUse id name args]⟩ rfl rfl]
    exact ⟨rfl, rfl⟩

/-- Witness for the C9 theorem at a concrete unknown tool name. -/
theorem unknown_tool_contained_witness :
    runTool ⟨[]⟩ "frobnicate" sampleArgs = ("Unknown tool: " ++ "frobnicate", ⟨[]⟩) :=
  unknown_tool_contained.1 ⟨[]⟩ "frobnicate" sampleArgs
    (by decide) (by decide) (by decide) (by decide) (by decide)

/-- **C8** (amended): `bash` returns the combined stdout and stderr text
whenever that text is nonempty (and a fixed success message when it is
empty); a non-zero exit is reported as an `Error: ` text result, not a
raised exception; and the loop continues past a failing command,
appending its result to the transcript. -/
theorem bash_failure_contained :
    (∀ out err : String, out ++ err ≠ "" →
      bash (ExecOutcome.success out err) = out ++ err) ∧
    (∀ m out err : String, isErrorText (bash (ExecOutcome.failure m out err)) = true) ∧
    (∀ (st : LoopState) (id : String),
      (loopStep st ⟨false, [ContentBlock.toolUse id "bash" failBashArgs]⟩).continueLoop =
        true ∧
      (loopStep st ⟨false, [ContentBlock.toolUse id "bash" failBashArgs]⟩).messages =
        st.messages ++ [Turn.assistant [ContentBlock.toolUse id "bash" failBashArgs],
          Turn.toolResults [⟨id, bash (ExecOutcome.failure "exit 1" "" "")⟩]]) := by
  refine ⟨?_, ?_, ?_⟩
  · intro out err h
    show (if out ++ err = "" then "Command executed successfully" else out ++ err) =
      out ++ err
    rw [if_neg h]
  · intro m out err
    show isErrorText
      ("Error: Bash command failed: " ++ m ++ "\nOutput: " ++ out ++ "\n" ++ err) = true
    apply isErrorText_append
    apply isErrorText_append
    apply isErrorText_append
    apply isErrorText_append
    exact isErrorText_append "Error: Bash command failed: " m (by decide)
  · intro st id
    rw [loopStep_continue st ⟨false, [ContentBlock.toolUse id "bash" failBashArgs]⟩ rfl rfl]
    exact ⟨rfl, rfl⟩

/-- Witness for the amended C8 theorem at a concrete command output. -/
theorem bash_failure_contained_witness :
    bash (ExecOutcome.success "o" "e") = "o" ++ "e" :=
  bash_failure_contained.1 "o" "e" (by decide)

/-- **C8** counterexample: a command with empty combined output is
reported as `Command executed successfully`, not as the (empty) combined
stdout-stderr text the claim promises. -/
theorem bash_empty_output_cex :
    bash (ExecOutcome.success "" "") = "Command executed successfully" ∧
    bash (ExecOutcome.success "" "") ≠ "" ++ "" := by
  exact ⟨rfl, by decide⟩

/-- **C6** (amended): on a fatal failure the error-summary artifact holds
exactly the contents of the error-kind entries, and the final snapshot
holds every appended log entry (count preserved) together with the error
message; the iteration count appears only in the success-path
snapshot. -/
theorem fatal_artifacts (logs : List LogEntry) (msg : String) :
    (∀ s, s ∈ errorSummary logs →
      ∃ e, e ∈ logs ∧ e.kind = LogKind.error ∧ e.content = s) ∧
    (∀ e, e ∈ logs → e.kind = LogKind.error → e.content ∈ errorSummary logs) ∧
    (fatalSnapshot logs msg).logs = logs ∧
    ((fatalSnapshot logs msg).logs).length = logs.length ∧
    (fatalSnapshot logs msg).errorMsg = some msg ∧
    (fatalSnapshot logs msg).totalIterations = none := by
  refine ⟨?_, ?_, rfl, rfl, rfl, rfl⟩
  · intro s hs
    rw [errorSummary] at hs
    obtain ⟨e, he, hc⟩ := List.mem_map.mp hs
    rw [List.mem_filter] at he
    exact ⟨e, he.1, by simpa using he.2, hc⟩
  · intro e he hk
    rw [errorSummary]
    exact List.mem_map.mpr ⟨e, List.mem_filter.mpr ⟨he, by simp [hk]⟩, rfl⟩

/-- Witness for the amended C6 theorem at a concrete two-entry log. -/
theorem fatal_artifacts_witness :
    ∃ e, e ∈ ([⟨"t1", LogKind.system, "start"⟩, ⟨"t2", LogKind.error, "bad"⟩] :
        List LogEntry) ∧ e.kind = LogKind.error ∧ e.content = "bad" :=
  (fatal_artifacts [⟨"t1", LogKind.system, "start"⟩, ⟨"t2", LogKind.error, "bad"⟩]
    "boom").1 "bad" (by decide)

/-- **C6** counterexample: the snapshot written on the fatal path records
no iteration count at all — `{ logs, error }` only — so a run failing at
iteration 3 does not record 3 (or any count) in it. -/
theorem fatal_snapshot_iterations_cex :
    (fatalSnapshot ([⟨"t", LogKind.error, "boom"⟩] : List LogEntry)
      "boom").totalIterations = none ∧
    (fatalSnapshot ([⟨"t", LogKind.error, "boom"⟩] : List LogEntry)
      "boom").totalIterations ≠ some 3 := by
  exact ⟨rfl, by decide⟩

end ImplFeature
